import Mathlib

/-!
Verification of the streaming chat-session orchestrator of the
langchain-nextjs-fastapi-template repository.

The client-side decoding and session logic lives in
`frontend/app/projects/chat/page.tsx` (`sendMessage`, `startNewConversation`,
`loadConversationHistory`); a deprecated prototype of the same decoding loop
lives in `page copy.tsx`.  JavaScript strings are modelled as `List Char`
(named `Chars` below); the SSE byte stream is modelled after text decoding,
i.e. as the character stream produced by `TextDecoder`.  `JSON.parse`
followed by the `switch (data.type)` dispatch is modelled by an abstract
payload parser `parse : Chars → Option Event`: a payload that is not valid
JSON, or whose `type` matches no `case` of the `switch`, yields `none` and is
skipped, exactly as the `try/catch` + fall-through of the source.
-/

namespace ChatStream

/-- JavaScript strings, modelled as character lists. -/
abbrev Chars := List Char

/-- The five wire event kinds of the stream protocol
(`token`, `tool_call`, `tool_result`, `done`, `error`), as dispatched by
`switch (data.type)` in `sendMessage`.  `done` may or may not carry a
`conversation_id` field (`none` models an absent field). -/
inductive Event where
  | token (content : Chars)
  | tool_call (tool_name : Chars) (tool_id : Chars) (args : Chars)
  | tool_result (tool_name : Chars) (content : Chars)
  | done (conversation_id : Option Nat)
  | error (message : Chars)
  deriving DecidableEq, Repr

/-- The `ToolCall` record type of `page.tsx` (the `args` object is kept
abstract as its source text). -/
structure ToolCall where
  tool_name : Chars
  tool_id : Chars
  args : Chars
  deriving DecidableEq, Repr

/-- The `ToolResult` record type of `page.tsx`. -/
structure ToolResult where
  tool_name : Chars
  content : Chars
  deriving DecidableEq, Repr

/-- The fixed prefix of the error rendering
`accumulatedContent = ` followed by the template `❌ Erro: ${data.message}`. -/
def errMarker : Chars := "❌ Erro: ".toList

/-- The mutable accumulators of one `sendMessage` call:
`accumulatedContent`, `accumulatedToolCalls`, `accumulatedToolResults` and
the local `newConversationId`. -/
structure StreamState where
  content : Chars
  toolCalls : List ToolCall
  toolResults : List ToolResult
  newConversationId : Option Nat
  deriving DecidableEq, Repr

/-- The accumulators as initialised at the top of `sendMessage`: the
assistant message is created with empty content and empty tool lists, and
`newConversationId` starts as `null`. -/
def initialStreamState : StreamState :=
  { content := [], toolCalls := [], toolResults := [], newConversationId := none }

/-- One step of the `switch (data.type)` dispatch of `sendMessage`
(current page).  `token` appends to the content accumulator; `tool_call` and
`tool_result` push onto their lists; `done` records `data.conversation_id`
when that field is truthy (absent or `0` is falsy in JavaScript); `error`
replaces the accumulated content with the rendered error string. -/
def applyEvent (st : StreamState) (e : Event) : StreamState :=
  match e with
  | .token c => { st with content := st.content ++ c }
  | .tool_call n i a => { st with toolCalls := st.toolCalls ++ [⟨n, i, a⟩] }
  | .tool_result n c => { st with toolResults := st.toolResults ++ [⟨n, c⟩] }
  | .done cid =>
      match cid with
      | some n => if n ≠ 0 then { st with newConversationId := some n } else st
      | none => st
  | .error m => { st with content := errMarker ++ m }

/-- Folding a decoded event sequence through the accumulators. -/
def processEvents (st : StreamState) (evs : List Event) : StreamState :=
  evs.foldl applyEvent st

/-- One step of the `switch (data.type)` dispatch of the deprecated
prototype page (`page copy.tsx`).  Identical to `applyEvent` except that the
prototype has no `case "done"`, so a `done` frame falls through with no
state change. -/
def applyEventProto (st : StreamState) (e : Event) : StreamState :=
  match e with
  | .token c => { st with content := st.content ++ c }
  | .tool_call n i a => { st with toolCalls := st.toolCalls ++ [⟨n, i, a⟩] }
  | .tool_result n c => { st with toolResults := st.toolResults ++ [⟨n, c⟩] }
  | .done _ => st
  | .error m => { st with content := errMarker ++ m }

/-- Folding a decoded event sequence through the prototype's accumulators. -/
def processEventsProto (st : StreamState) (evs : List Event) : StreamState :=
  evs.foldl applyEventProto st

/-- The `content` fields of the `token` events of a sequence, in order. -/
def tokenContents (evs : List Event) : List Chars :=
  evs.filterMap (fun e =>
    match e with
    | .token c => some c
    | _ => none)

/-- The `ToolCall` record built from a `tool_call` event, if any. -/
def eventToolCall (e : Event) : Option ToolCall :=
  match e with
  | .tool_call n i a => some ⟨n, i, a⟩
  | _ => none

/-- The `ToolResult` record built from a `tool_result` event, if any. -/
def eventToolResult (e : Event) : Option ToolResult :=
  match e with
  | .tool_result n c => some ⟨n, c⟩
  | _ => none

/-- Recognizer for `done` events. -/
def isDone (e : Event) : Bool :=
  match e with
  | .done _ => true
  | _ => false

/-- Recognizer for `error` events. -/
def isError (e : Event) : Bool :=
  match e with
  | .error _ => true
  | _ => false

/-- Recognizer for `token` events. -/
def isToken (e : Event) : Bool :=
  match e with
  | .token _ => true
  | _ => false

/-! ### Session state: `currentConversationId` and `isDraft` -/

/-- The conversation-related React state of `ChatContent`:
`currentConversationId : number | null` and `isDraft : boolean`. -/
structure Session where
  currentConversationId : Option Nat
  isDraft : Bool
  deriving DecidableEq, Repr

/-- The initial state: `useState<number | null>(null)` and
`useState(true)` (`// true = nova conversa sem ID`). -/
def initialSession : Session :=
  { currentConversationId := none, isDraft := true }

/-- `startNewConversation`: clears the id and sets the draft flag
(message clearing and navigation carry no session-relevant state). -/
def startNewConversation (_s : Session) : Session :=
  { currentConversationId := none, isDraft := true }

/-- The session effect of `loadConversationHistory conversationId`:
`setCurrentConversationId(conversationId); setIsDraft(false)`. -/
def loadConversationHistory (_s : Session) (conversationId : Nat) : Session :=
  { currentConversationId := some conversationId, isDraft := false }

/-- The draft-promotion block executed after the read loop of
`sendMessage`: `if (isDraft && newConversationId) {
setCurrentConversationId(newConversationId); setIsDraft(false); }`.
JavaScript truthiness of `newConversationId` makes `null` and `0` falsy. -/
def finishExchange (s : Session) (newConversationId : Option Nat) : Session :=
  match newConversationId with
  | some n =>
      if s.isDraft = true ∧ n ≠ 0 then
        { currentConversationId := some n, isDraft := false }
      else s
  | none => s

/-- The invariant relating the two pieces of session state: the draft flag
holds exactly when no conversation id is assigned. -/
def sessionInv (s : Session) : Prop :=
  s.isDraft = true ↔ s.currentConversationId = none

instance (s : Session) : Decidable (sessionInv s) := by
  unfold sessionInv; infer_instance

/-- The request body built by `sendMessage` for `POST /chat/stream`. -/
structure ChatRequest where
  project_id : Nat
  query : Chars
  conversation_id : Option Nat
  provider : Chars
  model : Chars
  deriving DecidableEq, Repr

/-- The `JSON.stringify` argument of the `fetch` in `sendMessage`:
`conversation_id: isDraft ? null : currentConversationId`, together with the
selected provider and model. -/
def buildRequestBody (projectId : Nat) (query : Chars) (s : Session)
    (llmProvider llmModel : Chars) : ChatRequest :=
  { project_id := projectId
    query := query
    conversation_id := if s.isDraft = true then none else s.currentConversationId
    provider := llmProvider
    model := llmModel }

/-- The completed (non-aborted) path of one `sendMessage` exchange: the read
loop folds every decoded event through the accumulators, then the
draft-promotion block runs with the recorded `newConversationId`. -/
def sendMessageCompleted (s : Session) (evs : List Event) :
    Session × StreamState :=
  let st := processEvents initialStreamState evs
  (finishExchange s st.newConversationId, st)

/-- The aborted path of one `sendMessage` exchange: `reader.read()` throws
`AbortError` after `k` events were decoded; the exception skips the
draft-promotion block (it sits inside the same `try`), and the `catch`
block does nothing for `AbortError`, so the session state is untouched and
the accumulators keep exactly what had streamed. -/
def sendMessageAborted (s : Session) (evs : List Event) (k : Nat) :
    Session × StreamState :=
  (s, processEvents initialStreamState (evs.take k))

/-! ### The SSE frame decoder of `sendMessage`

The read loop appends each decoded chunk to `buffer`, repeatedly extracts
the part before the first `"\n\n"` (`buffer.indexOf("\n\n")` /
`buffer.slice`), splits each extracted frame into lines at `"\n"`, keeps
lines starting with `"data: "`, trims the rest of the line and parses it. -/

/-- Splitting a buffer at the first occurrence of `"\n\n"`:
`some (frame, rest)` when `buffer.indexOf("\n\n")` is not `-1`, with
`frame = buffer.slice(0, boundary)` and `rest = buffer.slice(boundary + 2)`;
`none` when the buffer holds no complete frame. -/
def extractFrame : Chars → Option (Chars × Chars)
  | [] => none
  | c :: rest =>
      if c = '\n' ∧ rest.head? = some '\n' then some ([], rest.tail)
      else
        match extractFrame rest with
        | some (f, r) => some (c :: f, r)
        | none => none

/-- Fuelled form of the inner `while (boundary !== -1)` loop: extracts
complete frames until none is left, returning the frames in order and the
leftover buffer. -/
def splitFramesAux : Nat → Chars → List Chars × Chars
  | 0, buf => ([], buf)
  | Nat.succ fuel, buf =>
      match extractFrame buf with
      | none => ([], buf)
      | some (f, r) =>
          let p := splitFramesAux fuel r
          (f :: p.1, p.2)

/-- The inner `while (boundary !== -1)` loop on one buffer: each extracted
frame strictly shrinks the buffer, so `buf.length` steps of fuel always
suffice. -/
def splitFrames (buf : Chars) : List Chars × Chars :=
  splitFramesAux buf.length buf

/-- The outer read loop: each arriving chunk is appended to the carried
buffer and all complete frames are extracted; returns all frames in order
together with the final leftover buffer. -/
def processChunks : Chars → List Chars → List Chars × Chars
  | buf, [] => ([], buf)
  | buf, chunk :: rest =>
      let p := splitFrames (buf ++ chunk)
      let q := processChunks p.2 rest
      (p.1 ++ q.1, q.2)

/-- `message.split("\n")` of JavaScript: splitting a frame into lines
(an empty frame yields one empty line, as in JavaScript). -/
def splitOnNl : Chars → List Chars
  | [] => [[]]
  | c :: rest =>
      if c = '\n' then [] :: splitOnNl rest
      else
        match splitOnNl rest with
        | l :: ls => (c :: l) :: ls
        | [] => [[c]]

/-- The whitespace characters stripped by `String.prototype.trim` that can
occur in this protocol's frames (space, tab, newline, carriage return). -/
def isJsSpace (c : Char) : Bool :=
  c = ' ' ∨ c = '\t' ∨ c = '\n' ∨ c = '\r'

/-- `line.slice(6).trim()`'s trimming step: strip whitespace from both ends. -/
def trimChars (l : Chars) : Chars :=
  ((l.dropWhile isJsSpace).reverse.dropWhile isJsSpace).reverse

/-- The fixed SSE marker `"data: "`. -/
def dataMarker : Chars := "data: ".toList

/-- Decoding one line of a frame, with `parse` standing for `JSON.parse` +
the `switch (data.type)` dispatch: a line without the `"data: "` marker is
skipped (`continue`), an empty trimmed payload is skipped (`continue`), and
a payload that fails to parse (or carries an unknown `type`) yields `none`
and is skipped. -/
def decodeLine (parse : Chars → Option Event) (line : Chars) : Option Event :=
  if line.take 6 = dataMarker then
    let jsonStr := trimChars (line.drop 6)
    if jsonStr = [] then none
    else parse jsonStr
  else none

/-- Applying one line to the accumulators: a line decoding to an event is
dispatched through `applyEvent`; a skipped line leaves the state unchanged. -/
def processLine (parse : Chars → Option Event) (st : StreamState)
    (line : Chars) : StreamState :=
  match decodeLine parse line with
  | some e => applyEvent st e
  | none => st

/-- The event sequence decoded from one frame, in line order. -/
def frameEvents (parse : Chars → Option Event) (frame : Chars) : List Event :=
  (splitOnNl frame).filterMap (decodeLine parse)

/-- The event sequence decoded from a list of frames, in frame order. -/
def decodeFrames (parse : Chars → Option Event) (frames : List Chars) :
    List Event :=
  (frames.map (frameEvents parse)).flatten

/-- The wire encoding of an event sequence: one frame per event, each frame
a single payload line prefixed by `"data: "` and terminated by a blank line. -/
def encodeWire (enc : Event → Chars) (evs : List Event) : Chars :=
  (evs.map (fun e => dataMarker ++ enc e ++ ['\n', '\n'])).flatten

/-! ### Provider registry and stream endpoint (backend)

The backend Python sources (`llm_factory.py` and the `/chat/stream` route)
are not part of the available sources; only `services/llm/README.md`
documents them.  The definitions below are therefore modelled from the
spec (§4.1, §4.4, §7, §8 Scenario B) and the registry tables the README
enumerates. -/

/-- Modelled from the spec: resolution failure taxonomy of §4.1,
`resolve(providerId, modelId) -> ModelHandle | fails with UnknownProvider |
UnknownModel`. -/
inductive ResolveError where
  | UnknownProvider
  | UnknownModel
  deriving DecidableEq, Repr

/-- Modelled from the spec: the Provider Registry as a pure lookup table,
with the provider/model enumeration documented in
`services/llm/README.md` (`GET /chat/providers`). -/
def providerModels (provider : Chars) : Option (List Chars) :=
  if provider = "ollama".toList then
    some ["mistral".toList, "llama2".toList, "codellama".toList,
          "gpt-oss:120b-cloud".toList]
  else if provider = "openai".toList then
    some ["gpt-4o".toList, "gpt-4o-mini".toList, "gpt-4-turbo".toList,
          "gpt-3.5-turbo".toList]
  else if provider = "serpro".toList then
    some ["gpt-oss-120b".toList, "deepseek-r1-distill-qwen-14b".toList]
  else none

/-- Modelled from the spec: §4.1 resolution — an unregistered provider
fails with `UnknownProvider` (the README's `factory.get_model('invalid',
'model')` returning `None`), a model outside the provider's enumerated set
fails with `UnknownModel`. -/
def resolve (provider model : Chars) : Except ResolveError Unit :=
  match providerModels provider with
  | none => Except.error ResolveError.UnknownProvider
  | some ms => if model ∈ ms then Except.ok () else
      Except.error ResolveError.UnknownModel

/-- Modelled from the spec: the error message the route surfaces for a
resolution failure (the README raises `HTTPException(... "Provider not
found")`; the spec requires only a redacted detail). -/
def resolveErrorMessage (e : ResolveError) : Chars :=
  match e with
  | ResolveError.UnknownProvider => "Provider not found".toList
  | ResolveError.UnknownModel => "Model not found".toList

/-- The outcome of one `/chat/stream` request: the outward frames and
whether a persistence commit happened. -/
structure StreamResult where
  frames : List Event
  persisted : Bool
  deriving DecidableEq, Repr

/-- Modelled from the spec: §4.4 `Idle → Streaming` validates the
provider/model selection via §4.1 before any stream is opened; a resolution
failure yields an immediate single `error` frame and no persistence, while
a successful resolution streams the Model Handle's events and triggers
persistence on the `Completed` transition (§4.5). -/
def streamRequest (provider model : Chars) (genFrames : List Event) :
    StreamResult :=
  match resolve provider model with
  | Except.error e =>
      { frames := [Event.error (resolveErrorMessage e)], persisted := false }
  | Except.ok _ => { frames := genFrames, persisted := true }

/-! ### Concrete test codec

A small payload codec instantiating the abstract `parse` parameter on
concrete wire bytes, used to evaluate the decoder theorems at concrete
inputs. -/

/-- A concrete payload encoding for test events: a tag character followed
by the event's data (a `done` id is encoded in unary to keep the codec
trivially invertible). -/
def encTest (e : Event) : Chars :=
  match e with
  | Event.token c => 'T' :: c
  | Event.error m => 'E' :: m
  | Event.done (some n) => 'D' :: List.replicate n 'x'
  | Event.done none => ['d']
  | Event.tool_call n i a => 'C' :: (n ++ ('/' :: (i ++ ('/' :: a))))
  | Event.tool_result n c => 'R' :: (n ++ ('/' :: c))

/-- The matching concrete payload parser (covering the payload shapes used
by the concrete test streams). -/
def parseTest (p : Chars) : Option Event :=
  match p with
  | 'T' :: rest => some (Event.token rest)
  | 'E' :: rest => some (Event.error rest)
  | 'D' :: rest => some (Event.done (some rest.length))
  | _ => none

/-- A concrete event sequence for the decoder theorems. -/
def evsTest : List Event :=
  [Event.token "Hello".toList, Event.token " world".toList,
   Event.done (some 2)]

/-- Its wire encoding under `encTest`. -/
def wireTest : Chars := encodeWire encTest evsTest

/-- The same wire bytes split into two chunks at an arbitrary position
(inside the first frame). -/
def chunksTest : List Chars := [wireTest.take 9, wireTest.drop 9]

/-! ## Theorems -/

/-- Folding events splits over append. -/
theorem processEvents_append (st : StreamState) (a b : List Event) :
    processEvents st (a ++ b) = processEvents (processEvents st a) b := by
  simp [processEvents, List.foldl_append]

/-- `done` never touches the content accumulator. -/
theorem applyEvent_done_content (st : StreamState) (cid : Option Nat) :
    (applyEvent st (Event.done cid)).content = st.content := by
  cases cid with
  | none => rfl
  | some n =>
      simp only [applyEvent]
      split <;> rfl

/-- `done` never touches the tool accumulators. -/
theorem applyEvent_done_tools (st : StreamState) (cid : Option Nat) :
    (applyEvent st (Event.done cid)).toolCalls = st.toolCalls ∧
    (applyEvent st (Event.done cid)).toolResults = st.toolResults := by
  cases cid with
  | none => exact ⟨rfl, rfl⟩
  | some n =>
      simp only [applyEvent]
      split <;> exact ⟨rfl, rfl⟩

/-- Without `error` events, the content accumulator collects exactly the
`token` contents, appended in arrival order. -/
theorem processEvents_content (evs : List Event) :
    ∀ st : StreamState, (∀ e ∈ evs, isError e = false) →
      (processEvents st evs).content = st.content ++ (tokenContents evs).flatten := by
  induction evs with
  | nil => intro st _; simp [processEvents, tokenContents]
  | cons e rest ih =>
    intro st h
    have he : isError e = false := h e (by simp)
    have hrest : ∀ x ∈ rest, isError x = false := fun x hx => h x (by simp [hx])
    have hstep : processEvents st (e :: rest) = processEvents (applyEvent st e) rest := rfl
    rw [hstep, ih (applyEvent st e) hrest]
    cases e with
    | token c => simp [applyEvent, tokenContents]
    | tool_call n i a => simp [applyEvent, tokenContents]
    | tool_result n c => simp [applyEvent, tokenContents]
    | done cid =>
        rw [applyEvent_done_content]
        simp [tokenContents]
    | error m => simp [isError] at he

/-- The `toolCalls` accumulator collects exactly the `tool_call` events,
in arrival order. -/
theorem processEvents_toolCalls (evs : List Event) :
    ∀ st : StreamState,
      (processEvents st evs).toolCalls = st.toolCalls ++ evs.filterMap eventToolCall := by
  induction evs with
  | nil => intro st; simp [processEvents]
  | cons e rest ih =>
    intro st
    have hstep : processEvents st (e :: rest) = processEvents (applyEvent st e) rest := rfl
    rw [hstep, ih (applyEvent st e)]
    cases e with
    | token c => simp [applyEvent, eventToolCall]
    | tool_call n i a => simp [applyEvent, eventToolCall]
    | tool_result n c => simp [applyEvent, eventToolCall]
    | done cid =>
        rw [(applyEvent_done_tools st cid).1]
        simp [eventToolCall]
    | error m => simp [applyEvent, eventToolCall]

/-- The `toolResults` accumulator collects exactly the `tool_result`
events, in arrival order. -/
theorem processEvents_toolResults (evs : List Event) :
    ∀ st : StreamState,
      (processEvents st evs).toolResults = st.toolResults ++ evs.filterMap eventToolResult := by
  induction evs with
  | nil => intro st; simp [processEvents]
  | cons e rest ih =>
    intro st
    have hstep : processEvents st (e :: rest) = processEvents (applyEvent st e) rest := rfl
    rw [hstep, ih (applyEvent st e)]
    cases e with
    | token c => simp [applyEvent, eventToolResult]
    | tool_call n i a => simp [applyEvent, eventToolResult]
    | tool_result n c => simp [applyEvent, eventToolResult]
    | done cid =>
        rw [(applyEvent_done_tools st cid).2]
        simp [eventToolResult]
    | error m => simp [applyEvent, eventToolResult]

/-- Without `done` events, the recorded conversation id never changes. -/
theorem processEvents_newConversationId (evs : List Event) :
    ∀ st : StreamState, (∀ e ∈ evs, isDone e = false) →
      (processEvents st evs).newConversationId = st.newConversationId := by
  induction evs with
  | nil => intro st _; rfl
  | cons e rest ih =>
    intro st h
    have he : isDone e = false := h e (by simp)
    have hrest : ∀ x ∈ rest, isDone x = false := fun x hx => h x (by simp [hx])
    have hstep : processEvents st (e :: rest) = processEvents (applyEvent st e) rest := rfl
    rw [hstep, ih (applyEvent st e) hrest]
    cases e with
    | token c => rfl
    | tool_call n i a => rfl
    | tool_result n c => rfl
    | done cid => simp [isDone] at he
    | error m => rfl

/-- Without `done` events, the prototype dispatch and the current dispatch
coincide step by step, hence on whole folds. -/
theorem processEventsProto_eq (evs : List Event) :
    ∀ st : StreamState, (∀ e ∈ evs, isDone e = false) →
      processEventsProto st evs = processEvents st evs := by
  induction evs with
  | nil => intro st _; rfl
  | cons e rest ih =>
    intro st h
    have he : isDone e = false := h e (by simp)
    have hrest : ∀ x ∈ rest, isDone x = false := fun x hx => h x (by simp [hx])
    have h1 : processEventsProto st (e :: rest)
        = processEventsProto (applyEventProto st e) rest := rfl
    have h2 : processEvents st (e :: rest)
        = processEvents (applyEvent st e) rest := rfl
    have hstepeq : applyEventProto st e = applyEvent st e := by
      cases e with
      | token c => rfl
      | tool_call n i a => rfl
      | tool_result n c => rfl
      | done cid => simp [isDone] at he
      | error m => rfl
    rw [h1, h2, hstepeq, ih (applyEvent st e) hrest]

/-- C3: for every decoded event sequence containing no `error` event, the
assistant message's final content equals the concatenation, in arrival
order, of the content fields of all `token` events, starting from the empty
string in which the assistant message is created. -/
theorem final_content_is_token_concat (evs : List Event)
    (h : ∀ e ∈ evs, isError e = false) :
    (processEvents initialStreamState evs).content = (tokenContents evs).flatten := by
  rw [processEvents_content evs initialStreamState h]
  rfl

/-- Witness for C3 at a concrete token/tool/done stream. -/
theorem final_content_is_token_concat_witness :
    (processEvents initialStreamState
      [Event.token "Olá".toList,
       Event.tool_call "search_documents".toList "t1".toList "q".toList,
       Event.token " mundo".toList,
       Event.done (some 3)]).content
      = (tokenContents
          [Event.token "Olá".toList,
           Event.tool_call "search_documents".toList "t1".toList "q".toList,
           Event.token " mundo".toList,
           Event.done (some 3)]).flatten :=
  final_content_is_token_concat
    [Event.token "Olá".toList,
     Event.tool_call "search_documents".toList "t1".toList "q".toList,
     Event.token " mundo".toList,
     Event.done (some 3)]
    (by decide)

/-- C1 counterexample: after `token "Olá"` followed by `error "boom"`, the
accumulated content is exactly the rendered error string; the streamed
token text is not retained (the content does not even begin with it). -/
theorem error_event_discards_partial_counterexample :
    (processEvents initialStreamState
      [Event.token "Olá".toList, Event.error "boom".toList]).content
      = errMarker ++ "boom".toList ∧
    (processEvents initialStreamState
      [Event.token "Olá".toList, Event.error "boom".toList]).content.take 3
      ≠ "Olá".toList := by
  constructor
  · rfl
  · decide

/-- C1 amended: when an `error` event arrives, the assistant message's
accumulated text is replaced by the rendered error detail
`"❌ Erro: " ++ message`; the token text already streamed is discarded from
the accumulator rather than retained. -/
theorem error_event_replaces_content (evs : List Event) (m : Chars) :
    (processEvents initialStreamState (evs ++ [Event.error m])).content
      = errMarker ++ m := by
  rw [processEvents_append]
  rfl

/-- C5: the accumulated toolCalls and toolResults lists equal the
subsequences of `tool_call` and `tool_result` events in exact arrival
order, with no reordering across event kinds; consequently, whenever each
`tool_result` of the stream is preceded by a matching `tool_call`, every
accumulated tool result has its tool invocation accumulated in the same
assistant message, already at every prefix of the stream. -/
theorem tool_accumulators_preserve_order (evs : List Event) :
    (processEvents initialStreamState evs).toolCalls
      = evs.filterMap eventToolCall ∧
    (processEvents initialStreamState evs).toolResults
      = evs.filterMap eventToolResult ∧
    ∀ n : Nat,
      (∀ r ∈ (evs.take n).filterMap eventToolResult,
        ∃ c ∈ (evs.take n).filterMap eventToolCall, c.tool_name = r.tool_name) →
      ∀ r ∈ (processEvents initialStreamState (evs.take n)).toolResults,
        ∃ c ∈ (processEvents initialStreamState (evs.take n)).toolCalls,
          c.tool_name = r.tool_name := by
  refine ⟨?_, ?_, ?_⟩
  · rw [processEvents_toolCalls evs initialStreamState]; rfl
  · rw [processEvents_toolResults evs initialStreamState]; rfl
  · intro n h r hr
    rw [processEvents_toolResults (evs.take n) initialStreamState] at hr
    rw [processEvents_toolCalls (evs.take n) initialStreamState]
    simp only [initialStreamState, List.nil_append] at hr ⊢
    exact h r hr

/-- Witness for C5 at a concrete tool-using stream. -/
theorem tool_accumulators_preserve_order_witness :
    (processEvents initialStreamState
      [Event.tool_call "search_documents".toList "T1".toList "q".toList,
       Event.tool_result "search_documents".toList "excerpt".toList,
       Event.token "ok".toList]).toolResults
      = [ToolResult.mk "search_documents".toList "excerpt".toList] ∧
    ∀ r ∈ (processEvents initialStreamState
        (([Event.tool_call "search_documents".toList "T1".toList "q".toList,
           Event.tool_result "search_documents".toList "excerpt".toList,
           Event.token "ok".toList]).take 2)).toolResults,
      ∃ c ∈ (processEvents initialStreamState
        (([Event.tool_call "search_documents".toList "T1".toList "q".toList,
           Event.tool_result "search_documents".toList "excerpt".toList,
           Event.token "ok".toList]).take 2)).toolCalls,
        c.tool_name = r.tool_name := by
  have h := tool_accumulators_preserve_order
    [Event.tool_call "search_documents".toList "T1".toList "q".toList,
     Event.tool_result "search_documents".toList "excerpt".toList,
     Event.token "ok".toList]
  exact ⟨by rw [h.2.1]; decide, h.2.2 2 (by decide)⟩

/-- C9: a line without the `data: ` marker, an empty trimmed payload, or a
payload the parser rejects is skipped, leaving every accumulator (content,
toolCalls, toolResults, recorded conversation id) unchanged; the decoder
itself is a total function. -/
theorem malformed_frames_skipped (parse : Chars → Option Event)
    (st : StreamState) (line : Chars)
    (h : line.take 6 ≠ dataMarker ∨ trimChars (line.drop 6) = [] ∨
         parse (trimChars (line.drop 6)) = none) :
    processLine parse st line = st := by
  unfold processLine decodeLine
  rcases h with h | h | h
  · rw [if_neg h]
  · by_cases hm : line.take 6 = dataMarker
    · rw [if_pos hm]
      simp only [h]
      rfl
    · rw [if_neg hm]
  · by_cases hm : line.take 6 = dataMarker
    · rw [if_pos hm]
      by_cases he : trimChars (line.drop 6) = []
      · simp only [he]; rfl
      · simp only [if_neg he, h]
    · rw [if_neg hm]

/-- Witness for C9: a non-`data:` line, an empty payload and an unparsable
payload all leave the initial state unchanged. -/
theorem malformed_frames_skipped_witness :
    processLine parseTest initialStreamState "bogus line".toList
        = initialStreamState ∧
    processLine parseTest initialStreamState "data:    ".toList
        = initialStreamState ∧
    processLine parseTest initialStreamState "data: ?not-json".toList
        = initialStreamState :=
  ⟨malformed_frames_skipped parseTest initialStreamState "bogus line".toList
      (Or.inl (by decide)),
   malformed_frames_skipped parseTest initialStreamState "data:    ".toList
      (Or.inr (Or.inl (by decide))),
   malformed_frames_skipped parseTest initialStreamState "data: ?not-json".toList
      (Or.inr (Or.inr (by decide)))⟩

/-- C2: the draft flag holds exactly when no conversation id is assigned;
the invariant holds initially and is preserved by starting a new
conversation, loading a history, and the `done`-driven promotion; on a
draft session a `done` event carrying a nonzero conversation id assigns
that id and clears the draft flag, and any later promotion attempt leaves
the session unchanged (exactly-once). -/
theorem draft_flag_invariant :
    sessionInv initialSession ∧
    ∀ s : Session, sessionInv s →
      (∀ conversationId : Nat,
        sessionInv (loadConversationHistory s conversationId)) ∧
      sessionInv (startNewConversation s) ∧
      (∀ cid : Option Nat, sessionInv (finishExchange s cid)) ∧
      (s.isDraft = true → ∀ n : Nat, n ≠ 0 →
        (finishExchange s (some n)).currentConversationId = some n ∧
        (finishExchange s (some n)).isDraft = false ∧
        ∀ m : Option Nat,
          finishExchange (finishExchange s (some n)) m
            = finishExchange s (some n)) := by
  constructor
  · decide
  · intro s hs
    refine ⟨?_, ?_, ?_, ?_⟩
    · intro conversationId
      simp [sessionInv, loadConversationHistory]
    · simp [sessionInv, startNewConversation]
    · intro cid
      cases cid with
      | none => exact hs
      | some n =>
          by_cases hc : s.isDraft = true ∧ n ≠ 0
          · simp [finishExchange, if_pos hc, sessionInv]
          · simp only [finishExchange, if_neg hc]
            exact hs
    · intro hd n hn
      have hpos : finishExchange s (some n)
          = { currentConversationId := some n, isDraft := false } := by
        simp [finishExchange, if_pos (And.intro hd hn)]
      refine ⟨by rw [hpos], by rw [hpos], ?_⟩
      intro m
      cases m with
      | none => rfl
      | some k =>
          rw [hpos]
          simp [finishExchange]

/-- Witness for C2: promoting the initial draft session with conversation
id 7 yields a consistent, promoted session, and a second promotion changes
nothing. -/
theorem draft_flag_invariant_witness :
    sessionInv (finishExchange initialSession (some 7)) ∧
    (finishExchange initialSession (some 7)).currentConversationId = some 7 ∧
    finishExchange (finishExchange initialSession (some 7)) (some 9)
      = finishExchange initialSession (some 7) := by
  have h := draft_flag_invariant
  have h2 := h.2 initialSession h.1
  exact ⟨h2.2.2.1 (some 7),
         (h2.2.2.2 rfl 7 (by decide)).1,
         (h2.2.2.2 rfl 7 (by decide)).2.2 (some 9)⟩

/-- C7: under the session invariant, the request body built by
`sendMessage` carries `conversation_id = null` exactly when the session is
a draft, otherwise the current persisted conversation id, together with the
selected provider and model identifiers. -/
theorem request_body_draft_selection (projectId : Nat) (query : Chars)
    (s : Session) (llmProvider llmModel : Chars) (hs : sessionInv s) :
    ((buildRequestBody projectId query s llmProvider llmModel).conversation_id
        = none ↔ s.isDraft = true) ∧
    (s.isDraft = false →
      (buildRequestBody projectId query s llmProvider llmModel).conversation_id
        = s.currentConversationId) ∧
    (buildRequestBody projectId query s llmProvider llmModel).provider
        = llmProvider ∧
    (buildRequestBody projectId query s llmProvider llmModel).model
        = llmModel := by
  obtain ⟨cid, d⟩ := s
  cases d <;> cases cid <;> simp_all [sessionInv, buildRequestBody]

/-- Witness for C7: on a loaded (persisted) session the body carries the
persisted id, and on the initial draft session it carries `null`. -/
theorem request_body_draft_selection_witness :
    ((buildRequestBody 1 "oi".toList
        (loadConversationHistory initialSession 5)
        "ollama".toList "mistral".toList).conversation_id = some 5) ∧
    ((buildRequestBody 1 "oi".toList initialSession
        "ollama".toList "mistral".toList).conversation_id = none) := by
  constructor
  · exact (request_body_draft_selection 1 "oi".toList
      (loadConversationHistory initialSession 5)
      "ollama".toList "mistral".toList (by decide)).2.1 rfl
  · exact (request_body_draft_selection 1 "oi".toList initialSession
      "ollama".toList "mistral".toList (by decide)).1.mpr rfl

/-- C4: if a client abort is observed before the `done` event of a draft
exchange, the session keeps no conversation id (it remains a draft), the
abort is not rendered as an error message, and the accumulators hold
exactly the token text already streamed. -/
theorem abort_preserves_draft_session (s : Session) (evs : List Event)
    (k : Nat) (hdraft : s.isDraft = true) (hinv : sessionInv s)
    (hdone : ∀ e ∈ evs.take k, isDone e = false)
    (herr : ∀ e ∈ evs.take k, isError e = false) :
    (sendMessageAborted s evs k).1 = s ∧
    (sendMessageAborted s evs k).1.isDraft = true ∧
    (sendMessageAborted s evs k).1.currentConversationId = none ∧
    (sendMessageAborted s evs k).2.newConversationId = none ∧
    (sendMessageAborted s evs k).2.content
      = (tokenContents (evs.take k)).flatten := by
  refine ⟨rfl, hdraft, hinv.mp hdraft, ?_, ?_⟩
  · exact processEvents_newConversationId (evs.take k) initialStreamState hdone
  · show (processEvents initialStreamState (evs.take k)).content
      = (tokenContents (evs.take k)).flatten
    rw [processEvents_content (evs.take k) initialStreamState herr]
    rfl

/-- Witness for C4: aborting after 3 token frames of a 4-event draft
exchange (the fourth being `done`) leaves the draft session untouched and
the content equal to the three streamed tokens. -/
theorem abort_preserves_draft_session_witness :
    (sendMessageAborted initialSession
      [Event.token "A".toList, Event.token "B".toList,
       Event.token "C".toList, Event.done (some 4)] 3).1
      = initialSession ∧
    (sendMessageAborted initialSession
      [Event.token "A".toList, Event.token "B".toList,
       Event.token "C".toList, Event.done (some 4)] 3).2.newConversationId
      = none ∧
    (sendMessageAborted initialSession
      [Event.token "A".toList, Event.token "B".toList,
       Event.token "C".toList, Event.done (some 4)] 3).2.content
      = (tokenContents
          (([Event.token "A".toList, Event.token "B".toList,
             Event.token "C".toList, Event.done (some 4)]).take 3)).flatten := by
  have h := abort_preserves_draft_session initialSession
    [Event.token "A".toList, Event.token "B".toList,
     Event.token "C".toList, Event.done (some 4)] 3
    rfl (by decide) (by decide) (by decide)
  exact ⟨h.1, h.2.2.2.1, h.2.2.2.2⟩

/-- C10: on any frame sequence containing no `done` and no `error` event,
the deprecated prototype chat page's decoding dispatch and the current
page's dispatch produce identical assistant content, toolCalls and
toolResults. -/
theorem prototype_decoder_agrees (evs : List Event)
    (hdone : ∀ e ∈ evs, isDone e = false)
    (_herr : ∀ e ∈ evs, isError e = false) :
    (processEventsProto initialStreamState evs).content
      = (processEvents initialStreamState evs).content ∧
    (processEventsProto initialStreamState evs).toolCalls
      = (processEvents initialStreamState evs).toolCalls ∧
    (processEventsProto initialStreamState evs).toolResults
      = (processEvents initialStreamState evs).toolResults := by
  rw [processEventsProto_eq evs initialStreamState hdone]
  exact ⟨rfl, rfl, rfl⟩

/-- Witness for C10 at a concrete token/tool stream. -/
theorem prototype_decoder_agrees_witness :
    (processEventsProto initialStreamState
      [Event.token "Oi".toList,
       Event.tool_call "search_documents".toList "T1".toList "q".toList,
       Event.tool_result "search_documents".toList "doc".toList,
       Event.token "!".toList]).content
      = (processEvents initialStreamState
      [Event.token "Oi".toList,
       Event.tool_call "search_documents".toList "T1".toList "q".toList,
       Event.tool_result "search_documents".toList "doc".toList,
       Event.token "!".toList]).content :=
  (prototype_decoder_agrees
    [Event.token "Oi".toList,
     Event.tool_call "search_documents".toList "T1".toList "q".toList,
     Event.tool_result "search_documents".toList "doc".toList,
     Event.token "!".toList]
    (by decide) (by decide)).1

/-- C8 (spec-modelled): a request whose provider is not registered, or
whose model is not in that provider's enumerated set, fails before any
stream is opened — the client receives a single `error` frame, no `token`
frame is sent, and no persistence happens. -/
theorem resolution_failure_fails_fast (provider model : Chars)
    (genFrames : List Event)
    (h : providerModels provider = none ∨
         ∃ ms, providerModels provider = some ms ∧ model ∉ ms) :
    (streamRequest provider model genFrames).frames.length = 1 ∧
    (∀ f ∈ (streamRequest provider model genFrames).frames,
      isError f = true) ∧
    (∀ f ∈ (streamRequest provider model genFrames).frames,
      isToken f = false) ∧
    (streamRequest provider model genFrames).persisted = false := by
  have hres : ∃ e, resolve provider model = Except.error e := by
    rcases h with h | ⟨ms, hms, hmem⟩
    · exact ⟨ResolveError.UnknownProvider, by simp [resolve, h]⟩
    · exact ⟨ResolveError.UnknownModel, by simp [resolve, hms, hmem]⟩
  obtain ⟨e, he⟩ := hres
  simp [streamRequest, he, isError, isToken]

/-- Witness for C8: Scenario B's `provider:"unknown"` request yields one
error frame, no tokens, no persistence. -/
theorem resolution_failure_fails_fast_witness :
    (streamRequest "unknown".toList "mistral".toList
      [Event.token "hi".toList]).frames.length = 1 ∧
    (streamRequest "unknown".toList "mistral".toList
      [Event.token "hi".toList]).persisted = false := by
  have h := resolution_failure_fails_fast "unknown".toList "mistral".toList
    [Event.token "hi".toList] (Or.inl (by decide))
  exact ⟨h.1, h.2.2.2⟩

/-! ### Decoder lemmas (framing) -/

/-- A frame extracted by `extractFrame` strictly shrinks the buffer. -/
theorem extractFrame_length (buf : Chars) :
    ∀ f r : Chars, extractFrame buf = some (f, r) → r.length < buf.length := by
  induction buf with
  | nil => intro f r h; simp [extractFrame] at h
  | cons c rest ih =>
    intro f r h
    simp only [extractFrame] at h
    by_cases hc : c = '\n' ∧ rest.head? = some '\n'
    · rw [if_pos hc] at h
      simp only [Option.some.injEq, Prod.mk.injEq] at h
      obtain ⟨_, hr⟩ := h
      subst hr
      simp only [List.length_cons, List.length_tail]
      omega
    · rw [if_neg hc] at h
      cases he : extractFrame rest with
      | none => rw [he] at h; cases h
      | some p =>
          obtain ⟨f0, r0⟩ := p
          rw [he] at h
          simp only [Option.some.injEq, Prod.mk.injEq] at h
          obtain ⟨_, hr⟩ := h
          subst hr
          have := ih f0 r0 he
          simp only [List.length_cons]
          omega

/-- `extractFrame` only looks at the part of the buffer up to the first
blank line: a successful extraction is stable under appending. -/
theorem extractFrame_append (a b : Chars) :
    ∀ f r : Chars, extractFrame a = some (f, r) →
      extractFrame (a ++ b) = some (f, r ++ b) := by
  induction a with
  | nil => intro f r h; simp [extractFrame] at h
  | cons c rest ih =>
    intro f r h
    simp only [extractFrame] at h
    simp only [List.cons_append, extractFrame]
    by_cases hc : c = '\n' ∧ rest.head? = some '\n'
    · obtain ⟨hc1, hc2⟩ := hc
      cases rest with
      | nil => simp at hc2
      | cons r0 rest2 =>
          simp only [List.head?_cons, Option.some.injEq] at hc2
          subst hc2 hc1
          rw [if_pos (by simp)] at h
          simp only [Option.some.injEq, Prod.mk.injEq, List.tail_cons] at h
          obtain ⟨hf, hr⟩ := h
          subst hf hr
          rw [if_pos (by simp)]
          simp
    · rw [if_neg hc] at h
      cases he : extractFrame rest with
      | none => rw [he] at h; cases h
      | some p =>
          obtain ⟨f0, r0⟩ := p
          rw [he] at h
          simp only [Option.some.injEq, Prod.mk.injEq] at h
          obtain ⟨hf, hr⟩ := h
          subst hf hr
          cases rest with
          | nil => simp [extractFrame] at he
          | cons r0c rest2 =>
              have hc2 : ¬(c = '\n' ∧ ((r0c :: rest2 : Chars) ++ b).head? = some '\n') := by
                simpa using hc
              simp only [List.append_eq]
              rw [if_neg hc2, ih f0 r0 he]

/-- The fuelled frame loop is fuel-independent once the fuel covers the
buffer length. -/
theorem splitFramesAux_congr : ∀ fuel1 : Nat, ∀ buf : Chars, ∀ fuel2 : Nat,
    buf.length ≤ fuel1 → buf.length ≤ fuel2 →
    splitFramesAux fuel1 buf = splitFramesAux fuel2 buf := by
  intro fuel1
  induction fuel1 with
  | zero =>
      intro buf fuel2 h1 _
      have hb : buf = [] := List.length_eq_zero.mp (Nat.le_zero.mp h1)
      subst hb
      cases fuel2 with
      | zero => rfl
      | succ m => simp [splitFramesAux, extractFrame]
  | succ k ih =>
      intro buf fuel2 h1 h2
      cases fuel2 with
      | zero =>
          have hb : buf = [] := List.length_eq_zero.mp (Nat.le_zero.mp h2)
          subst hb
          simp [splitFramesAux, extractFrame]
      | succ m =>
          simp only [splitFramesAux]
          cases he : extractFrame buf with
          | none => rfl
          | some p =>
              obtain ⟨f, r⟩ := p
              have hlt := extractFrame_length buf f r he
              have hr := ih r m (by omega) (by omega)
              simp [hr]

/-- Unfolding principle for `splitFrames`: extract one frame and recurse. -/
theorem splitFrames_eq (buf : Chars) :
    splitFrames buf =
      match extractFrame buf with
      | none => ([], buf)
      | some (f, r) => (f :: (splitFrames r).1, (splitFrames r).2) := by
  cases he : extractFrame buf with
  | none =>
      unfold splitFrames
      cases buf with
      | nil => rfl
      | cons c rest =>
          simp only [List.length_cons, splitFramesAux, he]
  | some p =>
      obtain ⟨f, r⟩ := p
      have hlt := extractFrame_length buf f r he
      unfold splitFrames
      cases buf with
      | nil => simp [extractFrame] at he
      | cons c rest =>
          simp only [List.length_cons, splitFramesAux, he]
          have hcg : splitFramesAux rest.length r = splitFramesAux r.length r := by
            apply splitFramesAux_congr
            · simp only [List.length_cons] at hlt; omega
            · exact Nat.le_refl _
          simp [hcg]

/-- The leftover buffer after the frame loop contains no complete frame. -/
theorem splitFramesAux_leftover : ∀ fuel : Nat, ∀ buf : Chars,
    buf.length ≤ fuel → extractFrame (splitFramesAux fuel buf).2 = none := by
  intro fuel
  induction fuel with
  | zero =>
      intro buf h
      have hb : buf = [] := List.length_eq_zero.mp (Nat.le_zero.mp h)
      subst hb
      simp [splitFramesAux, extractFrame]
  | succ k ih =>
      intro buf h
      simp only [splitFramesAux]
      cases he : extractFrame buf with
      | none => simpa using he
      | some p =>
          obtain ⟨f, r⟩ := p
          have hlt := extractFrame_length buf f r he
          simpa using ih r (by omega)

/-- The leftover buffer after `splitFrames` contains no complete frame. -/
theorem splitFrames_leftover (buf : Chars) :
    extractFrame (splitFrames buf).2 = none :=
  splitFramesAux_leftover buf.length buf (Nat.le_refl _)

/-- Re-scanning from the leftover: frame splitting composes over append. -/
theorem splitFrames_append : ∀ n : Nat, ∀ a b : Chars, a.length ≤ n →
    splitFrames (a ++ b)
      = ((splitFrames a).1 ++ (splitFrames ((splitFrames a).2 ++ b)).1,
         (splitFrames ((splitFrames a).2 ++ b)).2) := by
  intro n
  induction n with
  | zero =>
      intro a b h
      have ha : a = [] := List.length_eq_zero.mp (Nat.le_zero.mp h)
      subst ha
      simp [splitFrames, splitFramesAux]
  | succ k ih =>
      intro a b h
      cases he : extractFrame a with
      | none =>
          have ha : splitFrames a = ([], a) := by
            rw [splitFrames_eq a, he]
          rw [ha]
          simp
      | some p =>
          obtain ⟨f, r⟩ := p
          have hlt := extractFrame_length a f r he
          have hx := extractFrame_append a b f r he
          have ha : splitFrames a = (f :: (splitFrames r).1, (splitFrames r).2) := by
            rw [splitFrames_eq a, he]
          have hab : splitFrames (a ++ b)
              = (f :: (splitFrames (r ++ b)).1, (splitFrames (r ++ b)).2) := by
            rw [splitFrames_eq (a ++ b), hx]
          rw [hab, ha, ih r b (by omega)]
          simp

/-- The outer read loop is chunking-independent: feeding the chunks one by
one with the carried buffer yields exactly the frame split of the whole
stream (provided the starting buffer holds no complete frame, as the empty
initial buffer does). -/
theorem processChunks_eq : ∀ chunks : List Chars, ∀ buf : Chars,
    extractFrame buf = none →
    processChunks buf chunks = splitFrames (buf ++ chunks.flatten) := by
  intro chunks
  induction chunks with
  | nil =>
      intro buf h
      simp only [processChunks, List.flatten_nil, List.append_nil]
      rw [splitFrames_eq buf, h]
  | cons c cs ih =>
      intro buf _
      simp only [processChunks]
      have hl := splitFrames_leftover (buf ++ c)
      rw [ih (splitFrames (buf ++ c)).2 hl]
      have hres : buf ++ (c :: cs).flatten = (buf ++ c) ++ cs.flatten := by
        simp [List.flatten_cons, List.append_assoc]
      rw [hres, splitFrames_append ((buf ++ c) ++ cs.flatten).length (buf ++ c)
        cs.flatten (by simp)]

/-- A newline-free line followed by a blank line is extracted whole. -/
theorem extractFrame_of_line : ∀ l r : Chars, '\n' ∉ l →
    extractFrame (l ++ '\n' :: '\n' :: r) = some (l, r) := by
  intro l
  induction l with
  | nil => intro r _; simp [extractFrame]
  | cons c rest ih =>
      intro r h
      have hc : ¬(c = '\n') := fun hh => h (by simp [hh])
      have hrest : '\n' ∉ rest := fun hh => h (List.mem_cons_of_mem c hh)
      simp only [List.cons_append, extractFrame]
      rw [if_neg (fun hh => hc hh.1)]
      simp only [List.append_eq]
      rw [ih r hrest]

/-- Splitting the well-formed wire encoding recovers one frame per event,
in order, with an empty leftover. -/
theorem splitFrames_encodeWire (enc : Event → Chars) :
    ∀ evs : List Event, (∀ e ∈ evs, '\n' ∉ enc e) →
      splitFrames (encodeWire enc evs)
        = (evs.map (fun e => dataMarker ++ enc e), []) := by
  intro evs
  induction evs with
  | nil =>
      intro _
      simp only [encodeWire, List.map_nil, List.flatten_nil]
      rfl
  | cons e rest ih =>
      intro h
      have he : '\n' ∉ enc e := h e (by simp)
      have hrest : ∀ x ∈ rest, '\n' ∉ enc x := fun x hx => h x (by simp [hx])
      have hline : '\n' ∉ dataMarker ++ enc e := by
        intro hm
        rcases List.mem_append.mp hm with hm | hm
        · simp [dataMarker] at hm
        · exact he hm
      have hwire : encodeWire enc (e :: rest)
          = (dataMarker ++ enc e) ++ ('\n' :: '\n' :: encodeWire enc rest) := by
        simp [encodeWire, List.flatten_cons, List.append_assoc]
      have hx := extractFrame_of_line (dataMarker ++ enc e)
        (encodeWire enc rest) hline
      rw [hwire, splitFrames_eq, hx]
      show ((dataMarker ++ enc e) :: (splitFrames (encodeWire enc rest)).1,
            (splitFrames (encodeWire enc rest)).2)
          = (List.map (fun x => dataMarker ++ enc x) (e :: rest), [])
      rw [ih hrest]
      simp

/-- A frame that has no newline splits into a single line. -/
theorem splitOnNl_no_newline : ∀ l : Chars, '\n' ∉ l → splitOnNl l = [l] := by
  intro l
  induction l with
  | nil => intro _; rfl
  | cons c rest ih =>
      intro h
      have hc : ¬(c = '\n') := fun hh => h (by simp [hh])
      have hrest : '\n' ∉ rest := fun hh => h (List.mem_cons_of_mem c hh)
      simp only [splitOnNl]
      rw [if_neg hc, ih hrest]

/-- The `"data: "` marker is recovered by `take 6`. -/
theorem take_dataMarker (x : Chars) : (dataMarker ++ x).take 6 = dataMarker := by
  rfl

/-- The payload after the `"data: "` marker is recovered by `drop 6`. -/
theorem drop_dataMarker (x : Chars) : (dataMarker ++ x).drop 6 = x := by
  rfl

/-- Decoding a well-formed frame yields exactly its event. -/
theorem frameEvents_of_payload (parse : Chars → Option Event) (e : Event)
    (payload : Chars) (hnl : '\n' ∉ payload)
    (htrim : trimChars payload = payload) (hne : payload ≠ [])
    (hp : parse payload = some e) :
    frameEvents parse (dataMarker ++ payload) = [e] := by
  have hline : '\n' ∉ dataMarker ++ payload := by
    intro hm
    rcases List.mem_append.mp hm with hm | hm
    · simp [dataMarker] at hm
    · exact hnl hm
  unfold frameEvents
  rw [splitOnNl_no_newline _ hline]
  simp only [List.filterMap_cons, List.filterMap_nil]
  unfold decodeLine
  rw [take_dataMarker, if_pos rfl, drop_dataMarker, htrim, if_neg hne, hp]

/-- Decoding the frames of a well-formed wire stream recovers the event
sequence. -/
theorem decodeFrames_encodeWire (parse : Chars → Option Event)
    (enc : Event → Chars) : ∀ evs : List Event,
    (∀ e ∈ evs, '\n' ∉ enc e) →
    (∀ e ∈ evs, trimChars (enc e) = enc e) →
    (∀ e ∈ evs, enc e ≠ []) →
    (∀ e ∈ evs, parse (enc e) = some e) →
    decodeFrames parse (evs.map (fun e => dataMarker ++ enc e)) = evs := by
  intro evs
  induction evs with
  | nil => intro _ _ _ _; rfl
  | cons e rest ih =>
      intro h1 h2 h3 h4
      have hframe := frameEvents_of_payload parse e (enc e)
        (h1 e (by simp)) (h2 e (by simp)) (h3 e (by simp)) (h4 e (by simp))
      have hrest := ih
        (fun x hx => h1 x (by simp [hx])) (fun x hx => h2 x (by simp [hx]))
        (fun x hx => h3 x (by simp [hx])) (fun x hx => h4 x (by simp [hx]))
      simp only [decodeFrames, List.map_cons, List.flatten_cons] at hrest ⊢
      rw [hframe, hrest]
      rfl

/-- C6: applied to any byte stream that is the frame-by-frame encoding of
an event sequence (each frame `data: <payload>` terminated by a blank
line, each payload newline-free, trimmed, nonempty and parsed back to its
event), the decoder recovers exactly the event sequence in frame order
with nothing left in the buffer; moreover the frame split is independent
of how the stream is cut into chunks (feeding the chunks with the carried
buffer equals splitting the concatenation). -/
theorem sse_decoder_recovers_events (parse : Chars → Option Event)
    (enc : Event → Chars) (evs : List Event) (chunks : List Chars)
    (hnl : ∀ e ∈ evs, '\n' ∉ enc e)
    (htrim : ∀ e ∈ evs, trimChars (enc e) = enc e)
    (hne : ∀ e ∈ evs, enc e ≠ [])
    (hparse : ∀ e ∈ evs, parse (enc e) = some e)
    (hchunks : chunks.flatten = encodeWire enc evs) :
    decodeFrames parse (processChunks [] chunks).1 = evs ∧
    (processChunks [] chunks).2 = [] ∧
    processChunks [] chunks = splitFrames chunks.flatten := by
  have hpc : processChunks [] chunks = splitFrames chunks.flatten := by
    have h := processChunks_eq chunks [] (by simp [extractFrame])
    simpa using h
  have hsf : splitFrames chunks.flatten
      = (evs.map (fun e => dataMarker ++ enc e), []) := by
    rw [hchunks]
    exact splitFrames_encodeWire enc evs hnl
  refine ⟨?_, ?_, hpc⟩
  · rw [hpc, hsf]
    exact decodeFrames_encodeWire parse enc evs hnl htrim hne hparse
  · rw [hpc, hsf]

/-- Witness for C6: a concrete two-token wire stream cut mid-frame into
two chunks decodes back to its events with an empty leftover buffer. -/
theorem sse_decoder_recovers_events_witness :
    decodeFrames parseTest (processChunks [] chunksTest).1 = evsTest ∧
    (processChunks [] chunksTest).2 = [] := by
  have h := sse_decoder_recovers_events parseTest encTest evsTest chunksTest
    (by decide) (by decide) (by decide) (by decide) (by decide)
  exact ⟨h.1, h.2.1⟩

end ChatStream
